import Mathlib

/-!
Verification model of the dynamic-pricing core of `dynamic.pricing.demo.py`.

The program's engine consists of three functions over Python `datetime`
values in the `Europe/Athens` timezone (via `pytz`):

* `get_cycle`       : maps a timestamp to the active pricing cycle, which
                      starts at the most recent 05:00 Athens wall-clock time
                      and lasts 22 hours;
* `get_current_scheduled_time` : rounds the elapsed time since cycle start
                      down to a multiple of `UPDATE_INTERVAL` (5 seconds);
* `calculate_price` : linear interpolation of a product's price over the
                      cycle (the interpolation fraction is NOT clamped).

Embedding conventions:

* Instants and wall-clock readings are `Int` microseconds since the epoch
  1970-01-01T00:00:00 (instants: that instant UTC; walls: that naive
  reading), matching Python `datetime`'s microsecond resolution.
* A Python aware datetime carries a naive wall-clock part plus the fixed
  UTC offset its `tzinfo` reports (`pytz` attaches a fixed-offset tzinfo at
  `localize`/`astimezone` time); `AwareDT` mirrors exactly that pair.
  Aware-datetime comparison and subtraction go through `AwareDT.instant`,
  as in Python.
* The IANA `Europe/Athens` rules used by `pytz` are modelled for the years
  governed by the EU directive (the era relevant to this program): standard
  time UTC+2 (EET), daylight saving time UTC+3 (EEST), DST in effect from
  01:00 UTC on the last Sunday of March until 01:00 UTC on the last Sunday
  of October.  `daysFromCivil` is the standard civil-calendar day count
  (proleptic Gregorian), `athensOffset` the resulting UTC offset of an
  instant, and `localizeAthens` mirrors `pytz`'s `localize` with the
  default `is_dst=False` (which tries the standard-time interpretation
  first); the two agree at every wall-clock time that exists and is
  unambiguous, which includes every 05:00 reading, the only wall time this
  program localizes.
* Python `//` and `%` with positive divisors are floor division and
  nonnegative remainder, which coincide with Lean's `Int` `/` and `%`.
* `float` quantities (`timedelta.total_seconds()` results and prices) are
  modelled as exact rationals; at the second-level granularity and price
  magnitudes of this program the float computations are exact or
  sub-ulp-faithful, and the specification's claims are about the exact
  values.
-/

namespace EcoStore

/-- Microseconds per second. -/
def usPerSec : Int := 1000000

/-- Microseconds per hour. -/
def usHour : Int := 3600 * 1000000

/-- Microseconds per day. -/
def usDay : Int := 86400 * 1000000

/-- Wall-clock reading 05:00:00 as microseconds past local midnight. -/
def usFiveAM : Int := 5 * usHour

/-- UTC offset of Athens standard time (EET, UTC+2), in microseconds. -/
def stdOffset : Int := 7200 * 1000000

/-- UTC offset of Athens daylight saving time (EEST, UTC+3), in microseconds. -/
def dstOffset : Int := 10800 * 1000000

/-- Number of days from 1970-01-01 to the civil (proleptic Gregorian) date
`y-m-d`; Hinnant's `days_from_civil` algorithm, as used by standard calendar
implementations (and extensionally by the tz database computations behind
`pytz`). -/
def daysFromCivil (y m d : Int) : Int :=
  let y' := if m ≤ 2 then y - 1 else y
  let era := y' / 400
  let yoe := y' - era * 400
  let mp := if m ≤ 2 then m + 9 else m - 3
  let doy := (153 * mp + 2) / 5 + d - 1
  let doe := yoe * 365 + yoe / 4 - yoe / 100 + doy
  era * 146097 + doe - 719468

/-- Day number of January 1 of year `y`. -/
def jan1 (y : Int) : Int := daysFromCivil y 1 1

/-- Civil year containing day number `z` (a linear first guess, corrected by
at most one year; correctness is the lemma `yearOfDay_spec`). -/
def yearOfDay (z : Int) : Int :=
  let g := (400 * (z + 719468)) / 146097
  if jan1 (g + 1) ≤ z then g + 1 else g

/-- Day number of the last Sunday of month `m` (a 31-day month) of year `y`.
Day 0 (1970-01-01) was a Thursday, so day `L` is a Sunday iff `(L+4) % 7 = 0`. -/
def lastSundayDay (y m : Int) : Int :=
  let L := daysFromCivil y m 31
  L - (L + 4) % 7

/-- Instant (µs) at which DST starts in year `y`: 01:00 UTC on the last
Sunday of March (EU rule, as in IANA `Europe/Athens`). -/
def dstStartUs (y : Int) : Int := lastSundayDay y 3 * usDay + usHour

/-- Instant (µs) at which DST ends in year `y`: 01:00 UTC on the last
Sunday of October. -/
def dstEndUs (y : Int) : Int := lastSundayDay y 10 * usDay + usHour

/-- UTC offset (µs) of `Europe/Athens` at UTC instant `u`. -/
def athensOffset (u : Int) : Int :=
  let y := yearOfDay (u / usDay)
  if dstStartUs y ≤ u ∧ u < dstEndUs y then dstOffset else stdOffset

/-- Athens wall-clock reading (naive µs) of UTC instant `u`. -/
def localWall (u : Int) : Int := u + athensOffset u

/-- A Python aware datetime: naive wall-clock part plus the fixed UTC offset
reported by its tzinfo (as `pytz` attaches). -/
structure AwareDT where
  wall : Int
  utcoff : Int
deriving Repr, DecidableEq

/-- The UTC instant an aware datetime denotes; Python compares and
subtracts aware datetimes through this value. -/
def AwareDT.instant (d : AwareDT) : Int := d.wall - d.utcoff

/-- Model of `pytz.timezone("Europe/Athens").localize(w)` with the default
`is_dst=False`: try the standard-time interpretation first, else daylight
saving time.  Agrees with `pytz` at every existing unambiguous wall time
(in particular at every 05:00 wall reading, the only input this program
localizes). -/
def localizeAthens (w : Int) : AwareDT :=
  if athensOffset (w - stdOffset) = stdOffset then ⟨w, stdOffset⟩ else ⟨w, dstOffset⟩

/-- Core of `get_cycle`, on the UTC instant of the argument (the Python code
first converts with `astimezone`, so the result depends only on the
instant): convert to Athens time, take today's 05:00 if the wall clock
reads at least 05:00, else yesterday's 05:00; the cycle ends 22 hours
after its start (`cycle_start + timedelta(hours=22)` keeps the tzinfo,
hence adds 22 hours to both wall and instant). -/
def get_cycleI (u : Int) : AwareDT × AwareDT :=
  let w := localWall u
  let today := w / usDay
  let cycle_start :=
    if usFiveAM ≤ w % usDay
    then localizeAthens (today * usDay + usFiveAM)
    else localizeAthens ((today - 1) * usDay + usFiveAM)
  (cycle_start, ⟨cycle_start.wall + 22 * usHour, cycle_start.utcoff⟩)

/-- Model of `get_cycle` on an aware datetime. -/
def get_cycle (t : AwareDT) : AwareDT × AwareDT := get_cycleI t.instant

/-- The `UPDATE_INTERVAL` constant of the program: 5 (seconds). -/
def UPDATE_INTERVAL : Int := 5

/-- Model of `get_current_scheduled_time`: floor the elapsed seconds since
cycle start to a multiple of `UPDATE_INTERVAL` and add the result back to
`cycle_start` (Python: `int(delta // UPDATE_INTERVAL) * UPDATE_INTERVAL`
seconds, added with `timedelta`, which keeps the tzinfo). -/
def get_current_scheduled_time (t : AwareDT) : AwareDT :=
  let cycle_start := (get_cycle t).1
  let delta := t.instant - cycle_start.instant
  let floor_delta := (delta / (UPDATE_INTERVAL * usPerSec)) * UPDATE_INTERVAL * usPerSec
  ⟨cycle_start.wall + floor_delta, cycle_start.utcoff⟩

/-- A catalog product: name, start price, end price (prices as exact
rationals modelling the program's floats). -/
structure Product where
  name : String
  start_price : ℚ
  end_price : ℚ
deriving Repr, DecidableEq

/-- Model of `timedelta.total_seconds()` on an exact µs difference. -/
def totalSeconds (us : Int) : ℚ := (us : ℚ) / 1000000

/-- Model of `calculate_price`: linear interpolation over the cycle that
`get_cycle` resolves for `scheduled_time`; the fraction is not clamped. -/
def calculate_price (product : Product) (scheduled_time : AwareDT) : ℚ :=
  let c := get_cycle scheduled_time
  let total_duration := totalSeconds (c.2.instant - c.1.instant)
  let elapsed := totalSeconds (scheduled_time.instant - c.1.instant)
  let fraction := elapsed / total_duration
  product.start_price + (product.end_price - product.start_price) * fraction

/-- Model of `get_products`: the four catalog products, with each
`end_price` the value produced by `random.uniform(0.30*s, 0.70*s)` for the
product's start price `s`, passed in as `r1 … r4`. -/
def get_products (r1 r2 r3 r4 : ℚ) : List Product :=
  [⟨"Eco Backpack", 50, r1⟩,
   ⟨"Reusable Water Bottle", 20, r2⟩,
   ⟨"Organic T-Shirt", 30, r3⟩,
   ⟨"Eco Sunglasses", 40, r4⟩]

/-- A Python datetime argument: either naive (no tzinfo) or aware. -/
inductive PyDateTime where
  | naive (wall : Int)
  | aware (d : AwareDT)
deriving Repr, DecidableEq

/-- The abstract configuration-error type the specification's error
taxonomy asks for (no constructor of the program ever produces it). -/
inductive ConfigurationError where
  | invalidTimezone
deriving Repr, DecidableEq

/-- Model of calling `get_cycle` on a possibly-naive datetime, with the
error channel the specification postulates.  Python's
`datetime.astimezone` presumes a naive receiver denotes system local time
(`sysOffset` maps a naive wall reading to the system zone's UTC offset)
and converts without raising, so both branches return `.ok`. -/
def get_cycle_py (sysOffset : Int → Int) :
    PyDateTime → Except ConfigurationError (AwareDT × AwareDT)
  | .naive w => .ok (get_cycleI (w - sysOffset w))
  | .aware d => .ok (get_cycle d)

lemma jan1_succ (y : Int) : jan1 y + 365 ≤ jan1 (y + 1) ∧ jan1 (y + 1) ≤ jan1 y + 366 := by
  simp only [jan1, daysFromCivil]
  norm_num
  omega

lemma yearOfDay_spec (z : Int) : jan1 (yearOfDay z) ≤ z ∧ z < jan1 (yearOfDay z + 1) := by
  have hg1 : jan1 ((400 * (z + 719468)) / 146097) ≤ z := by
    simp only [jan1, daysFromCivil]; norm_num; omega
  have hg2 : z < jan1 ((400 * (z + 719468)) / 146097 + 1 + 1) := by
    simp only [jan1, daysFromCivil]; norm_num; omega
  simp only [yearOfDay]
  by_cases h : jan1 ((400 * (z + 719468)) / 146097 + 1) ≤ z
  · rw [if_pos h]
    exact ⟨h, hg2⟩
  · rw [if_neg h]
    exact ⟨hg1, by omega⟩

lemma jan1_mono (y1 : Int) : ∀ y2, y1 ≤ y2 → jan1 y1 + 365 * (y2 - y1) ≤ jan1 y2 := by
  refine Int.le_induction ?_ ?_
  · omega
  · intro n hn ih
    have h2 := jan1_succ n
    omega

lemma dfc_mar (y d : Int) : daysFromCivil y 3 d = jan1 (y + 1) - 307 + d := by
  simp only [jan1, daysFromCivil]
  norm_num
  omega

lemma dfc_oct (y d : Int) : daysFromCivil y 10 d = jan1 (y + 1) - 93 + d := by
  simp only [jan1, daysFromCivil]
  norm_num
  omega

lemma lastSundayMar_bounds (y : Int) :
    daysFromCivil y 3 25 ≤ lastSundayDay y 3 ∧ lastSundayDay y 3 ≤ daysFromCivil y 3 31 := by
  simp only [lastSundayDay]
  have h1 := dfc_mar y 31
  have h2 := dfc_mar y 25
  omega

lemma lastSundayOct_bounds (y : Int) :
    daysFromCivil y 10 25 ≤ lastSundayDay y 10 ∧ lastSundayDay y 10 ≤ daysFromCivil y 10 31 := by
  simp only [lastSundayDay]
  have h1 := dfc_oct y 31
  have h2 := dfc_oct y 25
  omega

-- ===== new block =====

lemma window_in_year (y : Int) :
    jan1 y + 83 ≤ lastSundayDay y 3 ∧ lastSundayDay y 10 ≤ jan1 (y + 1) - 62 := by
  have h1 := lastSundayMar_bounds y
  have h2 := lastSundayOct_bounds y
  have h3 := dfc_mar y 25
  have h4 := dfc_oct y 31
  have h5 := jan1_succ y
  omega

lemma yearOfDay_unique {z y : Int} (h1 : jan1 y ≤ z) (h2 : z < jan1 (y + 1)) :
    yearOfDay z = y := by
  have hs := yearOfDay_spec z
  rcases lt_trichotomy (yearOfDay z) y with h | h | h
  · have hm := jan1_mono (yearOfDay z + 1) y (by omega)
    omega
  · exact h
  · have hm := jan1_mono (y + 1) (yearOfDay z) (by omega)
    omega

lemma athensOffset_cases (u : Int) : athensOffset u = stdOffset ∨ athensOffset u = dstOffset := by
  simp only [athensOffset]
  split
  · exact Or.inr rfl
  · exact Or.inl rfl

lemma athensOffset_dst (u : Int) :
    athensOffset u = dstOffset ↔ ∃ y, dstStartUs y ≤ u ∧ u < dstEndUs y := by
  constructor
  · intro h
    simp only [athensOffset] at h
    split at h
    · next hc => exact ⟨_, hc⟩
    · next hc => norm_num [stdOffset, dstOffset] at h
  · rintro ⟨y, hy1, hy2⟩
    have hw := window_in_year y
    have hz : yearOfDay (u / usDay) = y := by
      apply yearOfDay_unique
      · simp only [dstStartUs, usDay, usHour] at hy1 ⊢
        omega
      · simp only [dstEndUs, usDay, usHour] at hy2 ⊢
        omega
    simp only [athensOffset, hz]
    rw [if_pos ⟨hy1, hy2⟩]

lemma window_sep (y : Int) :
    dstStartUs y + 180 * usDay ≤ dstEndUs y ∧ dstEndUs y + 140 * usDay ≤ dstStartUs (y + 1) := by
  have h1 := lastSundayMar_bounds y
  have h2 := lastSundayOct_bounds y
  have h3 := dfc_mar y 25
  have h3' := dfc_mar y 31
  have h4 := dfc_oct y 25
  have h4' := dfc_oct y 31
  have h5 := dfc_mar (y + 1) 25
  have h5' := lastSundayMar_bounds (y + 1)
  have h6 := jan1_succ (y + 1)
  simp only [dstStartUs, dstEndUs, usDay, usHour]
  omega

lemma windows_ordered {y1 y2 : Int} (h : y1 < y2) :
    dstEndUs y1 + 140 * usDay ≤ dstStartUs y2 := by
  have hA := (window_in_year y2).1
  have hB := (window_in_year y1).2
  have hC := jan1_mono (y1 + 1) y2 (by omega)
  simp only [dstStartUs, dstEndUs, usDay, usHour]
  omega

lemma dst_mod (y : Int) :
    dstStartUs y % usDay = usHour ∧ dstEndUs y % usDay = usHour := by
  simp only [dstStartUs, dstEndUs, usDay, usHour]
  omega

lemma offset_transition {u v : Int} (huv : u ≤ v) (hne : athensOffset u ≠ athensOffset v) :
    ∃ y, (u < dstStartUs y ∧ dstStartUs y ≤ v) ∨ (u < dstEndUs y ∧ dstEndUs y ≤ v) := by
  rcases athensOffset_cases u with hu | hu <;> rcases athensOffset_cases v with hv | hv
  · exact absurd (hu.trans hv.symm) hne
  · obtain ⟨y, hy1, hy2⟩ := (athensOffset_dst v).mp hv
    have hnu : ¬ (dstStartUs y ≤ u ∧ u < dstEndUs y) := by
      intro hc
      have hdu := (athensOffset_dst u).mpr ⟨y, hc⟩
      rw [hdu] at hu
      norm_num [stdOffset, dstOffset] at hu
    by_cases hSu : dstStartUs y ≤ u
    · exact absurd ⟨hSu, by omega⟩ hnu
    · exact ⟨y, Or.inl ⟨by omega, by omega⟩⟩
  · obtain ⟨y, hy1, hy2⟩ := (athensOffset_dst u).mp hu
    have hnv : ¬ (dstStartUs y ≤ v ∧ v < dstEndUs y) := by
      intro hc
      have hdv := (athensOffset_dst v).mpr ⟨y, hc⟩
      rw [hdv] at hv
      norm_num [stdOffset, dstOffset] at hv
    by_cases hEv : v < dstEndUs y
    · exact absurd ⟨by omega, hEv⟩ hnv
    · exact ⟨y, Or.inr ⟨by omega, by omega⟩⟩
  · exact absurd (hu.trans hv.symm) hne

lemma AwareDT.eq_of_fields {a b : AwareDT} (h1 : a.wall = b.wall)
    (h2 : a.utcoff = b.utcoff) : a = b := by
  cases a
  cases b
  simp_all

lemma localizeAthens_consistent {w : Int} (hw : w % usDay = usFiveAM) :
    (localizeAthens w).wall = w ∧
    athensOffset ((localizeAthens w).instant) = (localizeAthens w).utcoff := by
  simp only [localizeAthens]
  by_cases h : athensOffset (w - stdOffset) = stdOffset
  · rw [if_pos h]
    exact ⟨rfl, by simpa [AwareDT.instant] using h⟩
  · rw [if_neg h]
    refine ⟨rfl, ?_⟩
    have hstd : athensOffset (w - stdOffset) = dstOffset := by
      rcases athensOffset_cases (w - stdOffset) with h' | h'
      · exact absurd h' h
      · exact h'
    obtain ⟨y, hy1, hy2⟩ := (athensOffset_dst _).mp hstd
    have hmod := dst_mod y
    have hgoal : dstStartUs y ≤ w - dstOffset ∧ w - dstOffset < dstEndUs y := by
      simp only [stdOffset, dstOffset, usDay, usHour, usFiveAM] at hy1 hy2 hmod hw ⊢
      omega
    simp only [AwareDT.instant]
    exact (athensOffset_dst _).mpr ⟨y, hgoal⟩

lemma const_facts :
    usPerSec = 1000000 ∧ usHour = 3600000000 ∧ usDay = 86400000000 ∧
    usFiveAM = 18000000000 ∧ stdOffset = 7200000000 ∧ dstOffset = 10800000000 := by
  norm_num [usPerSec, usHour, usDay, usFiveAM, stdOffset, dstOffset]

lemma fiveAM_wall_gap {u1 u2 : Int}
    (h1 : localWall u1 % usDay = usFiveAM) (h2 : localWall u2 % usDay = usFiveAM)
    (hlt : u1 < u2) : localWall u1 + usDay ≤ localWall u2 := by
  by_contra hcon
  push_neg at hcon
  have hc1 := athensOffset_cases u1
  have hc2 := athensOffset_cases u2
  have e1 : localWall u1 = u1 + athensOffset u1 := rfl
  have e2 : localWall u2 = u2 + athensOffset u2 := rfl
  simp only [usPerSec, usHour, usDay, usFiveAM, stdOffset, dstOffset] at *
  have ho1 : athensOffset u1 = 10800 * 1000000 := by omega
  have ho2 : athensOffset u2 = 7200 * 1000000 := by omega
  have hne : athensOffset u1 ≠ athensOffset u2 := by omega
  obtain ⟨y, hy⟩ := offset_transition (le_of_lt hlt) hne
  have hmod := dst_mod y
  simp only [usHour, usDay] at hmod
  rcases hy with ⟨hT1, hT2⟩ | ⟨hT1, hT2⟩
  · omega
  · omega

lemma get_cycleI_fst (u : Int) :
    (get_cycleI u).1 =
      (if usFiveAM ≤ localWall u % usDay
       then localizeAthens ((localWall u / usDay) * usDay + usFiveAM)
       else localizeAthens ((localWall u / usDay - 1) * usDay + usFiveAM)) := by
  simp only [get_cycleI]

lemma get_cycleI_snd (u : Int) :
    (get_cycleI u).2 =
      ⟨((get_cycleI u).1).wall + 22 * usHour, ((get_cycleI u).1).utcoff⟩ := by
  simp only [get_cycleI]

lemma get_cycleI_start_spec (u : Int) :
    ((get_cycleI u).1).wall % usDay = usFiveAM ∧
    ((get_cycleI u).1).wall ≤ localWall u ∧
    localWall u < ((get_cycleI u).1).wall + usDay ∧
    athensOffset (((get_cycleI u).1).instant) = ((get_cycleI u).1).utcoff := by
  rw [get_cycleI_fst]
  by_cases h : usFiveAM ≤ localWall u % usDay
  · rw [if_pos h]
    have hW : ((localWall u / usDay) * usDay + usFiveAM) % usDay = usFiveAM := by
      simp only [usDay, usFiveAM, usHour]
      omega
    have hc := localizeAthens_consistent hW
    rw [hc.1]
    refine ⟨hW, ?_, ?_, hc.2⟩
    · simp only [usDay, usFiveAM, usHour] at h ⊢
      omega
    · simp only [usDay, usFiveAM, usHour] at h ⊢
      omega
  · rw [if_neg h]
    push_neg at h
    have hW : ((localWall u / usDay - 1) * usDay + usFiveAM) % usDay = usFiveAM := by
      simp only [usDay, usFiveAM, usHour]
      omega
    have hc := localizeAthens_consistent hW
    rw [hc.1]
    refine ⟨hW, ?_, ?_, hc.2⟩
    · simp only [usDay, usFiveAM, usHour] at h ⊢
      omega
    · simp only [usDay, usFiveAM, usHour] at h ⊢
      omega

lemma cs_wall_localWall (u : Int) :
    localWall (((get_cycleI u).1).instant) = ((get_cycleI u).1).wall := by
  obtain ⟨hmod5, hle, hlt, hcons⟩ := get_cycleI_start_spec u
  have e : localWall (((get_cycleI u).1).instant) =
      ((get_cycleI u).1).instant + athensOffset (((get_cycleI u).1).instant) := rfl
  rw [e, hcons]
  simp [AwareDT.instant]

lemma cs_le (u : Int) : ((get_cycleI u).1).instant ≤ u := by
  by_contra hcon
  push_neg at hcon
  obtain ⟨hmod5, hle, hlt, hcons⟩ := get_cycleI_start_spec u
  have eI : ((get_cycleI u).1).instant =
      ((get_cycleI u).1).wall - ((get_cycleI u).1).utcoff := rfl
  have eW : localWall u = u + athensOffset u := rfl
  have hoU := athensOffset_cases u
  have hoC := athensOffset_cases (((get_cycleI u).1).instant)
  rw [hcons] at hoC
  have hneq : athensOffset u ≠ athensOffset (((get_cycleI u).1).instant) := by
    rw [hcons]
    simp only [usPerSec, usHour, usDay, usFiveAM, stdOffset, dstOffset] at *
    omega
  obtain ⟨y, hy⟩ := offset_transition (le_of_lt hcon) hneq
  have hmod := dst_mod y
  simp only [usPerSec, usHour, usDay, usFiveAM, stdOffset, dstOffset] at *
  rcases hy with ⟨hT1, hT2⟩ | ⟨hT1, hT2⟩ <;> omega

lemma cs_lt25 (u : Int) : u < ((get_cycleI u).1).instant + 25 * usHour := by
  obtain ⟨hmod5, hle, hlt, hcons⟩ := get_cycleI_start_spec u
  have eI : ((get_cycleI u).1).instant =
      ((get_cycleI u).1).wall - ((get_cycleI u).1).utcoff := rfl
  have eW : localWall u = u + athensOffset u := rfl
  have hoU := athensOffset_cases u
  have hoC := athensOffset_cases (((get_cycleI u).1).instant)
  rw [hcons] at hoC
  simp only [usPerSec, usHour, usDay, usFiveAM, stdOffset, dstOffset] at *
  omega

lemma cs_most_recent (u : Int) {v : Int} (hv : localWall v % usDay = usFiveAM)
    (hvu : v ≤ u) : v ≤ ((get_cycleI u).1).instant := by
  by_contra hcon
  push_neg at hcon
  obtain ⟨hmod5, hle, hlt, hcons⟩ := get_cycleI_start_spec u
  have hlw := cs_wall_localWall u
  have h5c : localWall (((get_cycleI u).1).instant) % usDay = usFiveAM := by
    rw [hlw]
    exact hmod5
  have hgap := fiveAM_wall_gap h5c hv hcon
  rw [hlw] at hgap
  have eI : ((get_cycleI u).1).instant =
      ((get_cycleI u).1).wall - ((get_cycleI u).1).utcoff := rfl
  have eWv : localWall v = v + athensOffset v := rfl
  have eWu : localWall u = u + athensOffset u := rfl
  have hoU := athensOffset_cases u
  have hoV := athensOffset_cases v
  rcases hoU with hoU | hoU <;> rcases hoV with hoV | hoV
  · simp only [usPerSec, usHour, usDay, usFiveAM, stdOffset, dstOffset] at *
    omega
  · have hne : athensOffset v ≠ athensOffset u := by
      rw [hoU, hoV]
      norm_num [stdOffset, dstOffset]
    obtain ⟨y, hy⟩ := offset_transition hvu hne
    have hmod := dst_mod y
    simp only [usPerSec, usHour, usDay, usFiveAM, stdOffset, dstOffset] at *
    rcases hy with ⟨hT1, hT2⟩ | ⟨hT1, hT2⟩ <;> omega
  · simp only [usPerSec, usHour, usDay, usFiveAM, stdOffset, dstOffset] at *
    omega
  · simp only [usPerSec, usHour, usDay, usFiveAM, stdOffset, dstOffset] at *
    omega

lemma ce_instant (u : Int) :
    ((get_cycleI u).2).instant = ((get_cycleI u).1).instant + 22 * usHour := by
  rw [get_cycleI_snd]
  simp only [AwareDT.instant]
  ring

lemma get_cycleI_between {t v : Int} (h1 : ((get_cycleI t).1).instant ≤ v)
    (h2 : v ≤ t) : get_cycleI v = get_cycleI t := by
  have h5t : localWall (((get_cycleI t).1).instant) % usDay = usFiveAM := by
    rw [cs_wall_localWall]
    exact (get_cycleI_start_spec t).1
  have h5v : localWall (((get_cycleI v).1).instant) % usDay = usFiveAM := by
    rw [cs_wall_localWall]
    exact (get_cycleI_start_spec v).1
  have ha : ((get_cycleI t).1).instant ≤ ((get_cycleI v).1).instant :=
    cs_most_recent v h5t h1
  have hb : ((get_cycleI v).1).instant ≤ ((get_cycleI t).1).instant :=
    cs_most_recent t h5v ((cs_le v).trans h2)
  have hinst : ((get_cycleI v).1).instant = ((get_cycleI t).1).instant :=
    le_antisymm hb ha
  have hoff : ((get_cycleI v).1).utcoff = ((get_cycleI t).1).utcoff := by
    rw [← (get_cycleI_start_spec v).2.2.2, ← (get_cycleI_start_spec t).2.2.2, hinst]
  have hwall : ((get_cycleI v).1).wall = ((get_cycleI t).1).wall := by
    rw [← cs_wall_localWall v, ← cs_wall_localWall t, hinst]
  have hfst : (get_cycleI v).1 = (get_cycleI t).1 := AwareDT.eq_of_fields hwall hoff
  have hsnd : (get_cycleI v).2 = (get_cycleI t).2 := by
    rw [get_cycleI_snd v, get_cycleI_snd t, hwall, hoff]
  calc get_cycleI v = ((get_cycleI v).1, (get_cycleI v).2) := rfl
  _ = ((get_cycleI t).1, (get_cycleI t).2) := by rw [hfst, hsnd]
  _ = get_cycleI t := rfl

lemma calculate_price_eq (p : Product) (t : AwareDT) :
    calculate_price p t = p.start_price + (p.end_price - p.start_price) *
      (((t.instant - ((get_cycle t).1).instant : Int) : ℚ) / 79200000000) := by
  have hce : ((get_cycleI t.instant).2).instant - ((get_cycleI t.instant).1).instant
      = 79200000000 := by
    have h := ce_instant t.instant
    simp only [usHour] at h
    omega
  simp only [calculate_price, get_cycle, totalSeconds, hce]
  push_cast
  field_simp

/-- C3: for every timezone-aware timestamp t, get_cycle returns a cycle
whose start is the most recent occurrence of 05:00 Athens wall-clock time
at or before t (an instant whose Athens reading is 05:00, no later such
instant being ≤ t), whose end is exactly 22 hours after its start (both as
instants and as wall readings), with end strictly after start. -/
theorem resolve_cycle_fixed_window_spec (t : AwareDT) :
    localWall (((get_cycle t).1).instant) % usDay = usFiveAM ∧
    ((get_cycle t).1).instant ≤ t.instant ∧
    (∀ v : Int, localWall v % usDay = usFiveAM → v ≤ t.instant →
      v ≤ ((get_cycle t).1).instant) ∧
    ((get_cycle t).2).instant = ((get_cycle t).1).instant + 22 * usHour ∧
    ((get_cycle t).2).wall = ((get_cycle t).1).wall + 22 * usHour ∧
    ((get_cycle t).1).instant < ((get_cycle t).2).instant := by
  refine ⟨?_, cs_le t.instant, ?_, ce_instant t.instant, ?_, ?_⟩
  · rw [show ((get_cycle t).1) = ((get_cycleI t.instant).1) from rfl, cs_wall_localWall]
    exact (get_cycleI_start_spec t.instant).1
  · intro v hv hvu
    exact cs_most_recent t.instant hv hvu
  · rfl
  · rw [show ((get_cycle t).2) = ((get_cycleI t.instant).2) from rfl, ce_instant]
    simp only [get_cycle, usHour]
    omega

/-- C5: for every timezone-aware timestamp t, get_current_scheduled_time
computes cycle_start + floor((t - cycle_start) / Δ) · Δ for the fixed
interval Δ = UPDATE_INTERVAL = 5 seconds, and the result q satisfies
q ≤ t and t - q < Δ. -/
theorem quantized_time_spec (t : AwareDT) :
    (get_current_scheduled_time t).instant =
      ((get_cycle t).1).instant +
        ((t.instant - ((get_cycle t).1).instant) / (UPDATE_INTERVAL * usPerSec))
          * (UPDATE_INTERVAL * usPerSec) ∧
    (get_current_scheduled_time t).instant ≤ t.instant ∧
    t.instant - (get_current_scheduled_time t).instant < UPDATE_INTERVAL * usPerSec := by
  refine ⟨?_, ?_, ?_⟩ <;>
    simp only [get_current_scheduled_time, get_cycle, AwareDT.instant,
      UPDATE_INTERVAL, usPerSec] <;>
    omega

/-- C10: quantization preserves the pricing cycle: for every timezone-aware
timestamp t, get_cycle of the quantized time equals get_cycle of t, so
calculate_price at the quantized time interpolates over the cycle that
contains t. -/
theorem quantization_preserves_cycle (t : AwareDT) :
    get_cycle (get_current_scheduled_time t) = get_cycle t := by
  have hcs := cs_le t.instant
  have hq : (get_current_scheduled_time t).instant =
      ((get_cycleI t.instant).1).instant +
        ((t.instant - ((get_cycleI t.instant).1).instant) / (UPDATE_INTERVAL * usPerSec))
          * (UPDATE_INTERVAL * usPerSec) := by
    simp only [get_current_scheduled_time, get_cycle, AwareDT.instant,
      UPDATE_INTERVAL, usPerSec]
    omega
  have hb1 : ((get_cycleI t.instant).1).instant ≤ (get_current_scheduled_time t).instant := by
    rw [hq]
    simp only [UPDATE_INTERVAL, usPerSec]
    omega
  have hb2 : (get_current_scheduled_time t).instant ≤ t.instant := by
    rw [hq]
    simp only [UPDATE_INTERVAL, usPerSec]
    omega
  show get_cycleI (get_current_scheduled_time t).instant = get_cycleI t.instant
  exact get_cycleI_between hb1 hb2

/-- C9 counterexample: at 2025-10-26 04:30 EET (the morning of the DST
fall-back in Athens), the timestamp lies 24.5 hours after the cycle start
that get_cycle assigns to it, refuting the claimed bound
t < cycle_start + 24 hours. -/
theorem cycle_elapsed_24h_bound_cex :
    ¬ ((⟨1761453000000000, 7200000000⟩ : AwareDT).instant <
        ((get_cycle ⟨1761453000000000, 7200000000⟩).1).instant + 24 * usHour) := by
  decide

/-- C9 amended: for every timezone-aware timestamp t, the cycle start that
get_cycle assigns satisfies cycle_start ≤ t < cycle_start + 25 hours (so
the elapsed time used by calculate_price is never negative; t can exceed
cycle_end by up to 3 hours across a DST fall-back, 2 hours otherwise). -/
theorem cycle_elapsed_bounds (t : AwareDT) :
    ((get_cycle t).1).instant ≤ t.instant ∧
    t.instant < ((get_cycle t).1).instant + 25 * usHour :=
  ⟨cs_le t.instant, cs_lt25 t.instant⟩

/-- C1 counterexample: with the cycle starting 2025-04-05 05:00 EEST and the
product (start 100, end 40), at t = cycle_start + 23 hours (one hour past
cycle_end, still resolved to the same cycle) calculate_price returns
410/11 = 37.27…, not end_price = 40: the fraction is not clamped. -/
theorem price_after_cycle_end_not_clamped_cex :
    ((get_cycle ⟨1743829200000000 + 23 * usHour, dstOffset⟩).2).instant <
      (⟨1743829200000000 + 23 * usHour, dstOffset⟩ : AwareDT).instant ∧
    calculate_price ⟨"Demo", 100, 40⟩ ⟨1743829200000000 + 23 * usHour, dstOffset⟩ ≠ 40 := by
  have hcs : (get_cycle ⟨1743829200000000 + 23 * usHour, dstOffset⟩).1 =
      ⟨1743829200000000, dstOffset⟩ := by decide
  constructor
  · decide
  · rw [calculate_price_eq, hcs]
    simp only [AwareDT.instant, usHour, dstOffset]
    norm_num

/-- C1 amended: for every product and timezone-aware timestamp t strictly
after the end of the cycle that get_cycle assigns to t, the interpolation
fraction strictly exceeds 1 (it is not clamped) and calculate_price
extrapolates strictly past end_price: below it when end_price < start_price,
above it when start_price < end_price; it equals end_price only when the two
prices coincide. -/
theorem price_after_cycle_end_extrapolates (p : Product) (t : AwareDT)
    (h : ((get_cycle t).2).instant < t.instant) :
    (1 : ℚ) < ((t.instant - ((get_cycle t).1).instant : Int) : ℚ) / 79200000000 ∧
    (p.end_price < p.start_price → calculate_price p t < p.end_price) ∧
    (p.start_price < p.end_price → p.end_price < calculate_price p t) := by
  have hce := ce_instant t.instant
  have hfr : (1 : ℚ) < ((t.instant - ((get_cycle t).1).instant : Int) : ℚ) / 79200000000 := by
    rw [lt_div_iff₀ (by norm_num), one_mul]
    have hi : (79200000000 : Int) < t.instant - ((get_cycle t).1).instant := by
      simp only [get_cycle] at h ⊢
      simp only [usHour] at hce
      omega
    exact_mod_cast hi
  refine ⟨hfr, ?_, ?_⟩
  · intro hpe
    rw [calculate_price_eq]
    nlinarith [hfr, hpe]
  · intro hpe
    rw [calculate_price_eq]
    nlinarith [hfr, hpe]

/-- C1 witness for the amended theorem: at the concrete input of the
counterexample the hypotheses hold and the price 410/11 is strictly below
the end price 40. -/
theorem price_after_cycle_end_extrapolates_witness :
    (((get_cycle ⟨1743829200000000 + 23 * usHour, dstOffset⟩).2).instant <
        (⟨1743829200000000 + 23 * usHour, dstOffset⟩ : AwareDT).instant) ∧
    calculate_price ⟨"Demo", 100, 40⟩ ⟨1743829200000000 + 23 * usHour, dstOffset⟩
      < (⟨"Demo", 100, 40⟩ : Product).end_price :=
  ⟨by decide,
   (price_after_cycle_end_extrapolates ⟨"Demo", 100, 40⟩
      ⟨1743829200000000 + 23 * usHour, dstOffset⟩ (by decide)).2.1 (by norm_num)⟩

/-- C2: for every product and timezone-aware timestamp t lying between the
start and end (inclusive) of the cycle get_cycle assigns to t,
calculate_price returns a value between the smaller and the larger of
start_price and end_price, inclusive. -/
theorem price_within_cycle_bounded (p : Product) (t : AwareDT)
    (h1 : ((get_cycle t).1).instant ≤ t.instant)
    (h2 : t.instant ≤ ((get_cycle t).2).instant) :
    min p.start_price p.end_price ≤ calculate_price p t ∧
    calculate_price p t ≤ max p.start_price p.end_price := by
  rw [calculate_price_eq]
  have hce := ce_instant t.instant
  have hx0 : (0 : ℚ) ≤ ((t.instant - ((get_cycle t).1).instant : Int) : ℚ) / 79200000000 := by
    apply div_nonneg _ (by norm_num)
    have hi : (0 : Int) ≤ t.instant - ((get_cycle t).1).instant := by
      simp only [get_cycle] at h1 ⊢
      omega
    exact_mod_cast hi
  have hx1 : ((t.instant - ((get_cycle t).1).instant : Int) : ℚ) / 79200000000 ≤ 1 := by
    rw [div_le_one (by norm_num)]
    have hi : t.instant - ((get_cycle t).1).instant ≤ (79200000000 : Int) := by
      simp only [get_cycle] at h2 ⊢
      simp only [usHour] at hce
      omega
    exact_mod_cast hi
  rcases le_total p.start_price p.end_price with hse | hse
  · rw [min_eq_left hse, max_eq_right hse]
    constructor <;> nlinarith [hx0, hx1, hse]
  · rw [min_eq_right hse, max_eq_left hse]
    constructor <;> nlinarith [hx0, hx1, hse]

/-- C2 witness: at the concrete mid-cycle input the hypotheses hold and the
price 70 lies between 40 and 100. -/
theorem price_within_cycle_bounded_witness :
    (((get_cycle ⟨1743829200000000 + 11 * usHour, dstOffset⟩).1).instant ≤
        (⟨1743829200000000 + 11 * usHour, dstOffset⟩ : AwareDT).instant) ∧
    ((⟨1743829200000000 + 11 * usHour, dstOffset⟩ : AwareDT).instant ≤
        ((get_cycle ⟨1743829200000000 + 11 * usHour, dstOffset⟩).2).instant) ∧
    (min (100 : ℚ) 40 ≤ calculate_price ⟨"Demo", 100, 40⟩
        ⟨1743829200000000 + 11 * usHour, dstOffset⟩ ∧
      calculate_price ⟨"Demo", 100, 40⟩ ⟨1743829200000000 + 11 * usHour, dstOffset⟩
        ≤ max (100 : ℚ) 40) :=
  ⟨by decide, by decide,
   price_within_cycle_bounded ⟨"Demo", 100, 40⟩
     ⟨1743829200000000 + 11 * usHour, dstOffset⟩ (by decide) (by decide)⟩

/-- C4: for timestamps t1 ≤ t2 that get_cycle resolves to the same pricing
cycle, calculate_price is non-increasing in t when start_price ≥ end_price
and non-decreasing when start_price ≤ end_price. -/
theorem price_monotone_within_cycle (p : Product) (t1 t2 : AwareDT)
    (hsame : get_cycle t1 = get_cycle t2) (h12 : t1.instant ≤ t2.instant) :
    (p.end_price ≤ p.start_price → calculate_price p t2 ≤ calculate_price p t1) ∧
    (p.start_price ≤ p.end_price → calculate_price p t1 ≤ calculate_price p t2) := by
  rw [calculate_price_eq, calculate_price_eq, hsame]
  have hi : ((t1.instant - ((get_cycle t2).1).instant : Int) : ℚ) ≤
      ((t2.instant - ((get_cycle t2).1).instant : Int) : ℚ) := by
    have hj : t1.instant - ((get_cycle t2).1).instant ≤
        t2.instant - ((get_cycle t2).1).instant := by omega
    exact_mod_cast hj
  have hxy : ((t1.instant - ((get_cycle t2).1).instant : Int) : ℚ) / 79200000000 ≤
      ((t2.instant - ((get_cycle t2).1).instant : Int) : ℚ) / 79200000000 :=
    (div_le_div_iff_of_pos_right (by norm_num)).mpr hi
  refine ⟨?_, ?_⟩
  · intro h
    nlinarith [mul_nonneg (sub_nonneg.mpr h) (sub_nonneg.mpr hxy)]
  · intro h
    nlinarith [mul_nonneg (sub_nonneg.mpr h) (sub_nonneg.mpr hxy)]

/-- C4 witness: with the product (start 100, end 40) and the concrete
timestamps cycle_start + 11h and cycle_start + 12h of one cycle, the price
at the later time is at most the price at the earlier time. -/
theorem price_monotone_within_cycle_witness :
    (get_cycle ⟨1743829200000000 + 11 * usHour, dstOffset⟩ =
        get_cycle ⟨1743829200000000 + 12 * usHour, dstOffset⟩) ∧
    calculate_price ⟨"Demo", 100, 40⟩ ⟨1743829200000000 + 12 * usHour, dstOffset⟩ ≤
      calculate_price ⟨"Demo", 100, 40⟩ ⟨1743829200000000 + 11 * usHour, dstOffset⟩ :=
  ⟨by decide,
   (price_monotone_within_cycle ⟨"Demo", 100, 40⟩
      ⟨1743829200000000 + 11 * usHour, dstOffset⟩
      ⟨1743829200000000 + 12 * usHour, dstOffset⟩
      (by decide) (by decide)).1 (by norm_num)⟩

/-- C6 counterexample: calling the cycle resolver on a naive timestamp does
not fail: with system timezone UTC and the naive reading 0 the call returns
a normal cycle, not a ConfigurationError. -/
theorem naive_timestamp_not_rejected_cex :
    get_cycle_py (fun _ => 0) (PyDateTime.naive 0) = Except.ok (get_cycleI 0) := rfl

/-- C6 amended: a naive timestamp is not rejected: for every system timezone
and naive wall reading, astimezone presumes the timestamp denotes system
local time and the call returns the cycle of the resulting instant; no
ConfigurationError is ever raised. -/
theorem naive_timestamp_system_tz (sysOffset : Int → Int) (w : Int) :
    get_cycle_py sysOffset (PyDateTime.naive w) =
      Except.ok (get_cycleI (w - sysOffset w)) := rfl

/-- C7: in the cycle starting 2025-04-05 05:00 EEST (couched under the
fixed-window policy: start 05:00 Athens, duration 22 hours), the product
with start_price 100 and end_price 40 is priced exactly 70 at
t = cycle_start + 11 hours. -/
theorem price_midpoint_scenario :
    (get_cycle ⟨1743829200000000 + 11 * usHour, dstOffset⟩).1 =
      ⟨1743829200000000, dstOffset⟩ ∧
    calculate_price ⟨"Demo", 100, 40⟩ ⟨1743829200000000 + 11 * usHour, dstOffset⟩
      = 70 := by
  have hcs : (get_cycle ⟨1743829200000000 + 11 * usHour, dstOffset⟩).1 =
      ⟨1743829200000000, dstOffset⟩ := by decide
  constructor
  · exact hcs
  · rw [calculate_price_eq, hcs]
    simp only [AwareDT.instant, usHour, dstOffset]
    norm_num

/-- C8: whenever the four random draws lie within the bounds requested from
random.uniform, every product of the catalog has its end_price in
[0.30 · start_price, 0.70 · start_price], hence 0 ≤ end_price ≤ start_price. -/
theorem catalog_end_price_bounds (r1 r2 r3 r4 : ℚ)
    (h1 : 3/10 * 50 ≤ r1 ∧ r1 ≤ 7/10 * 50)
    (h2 : 3/10 * 20 ≤ r2 ∧ r2 ≤ 7/10 * 20)
    (h3 : 3/10 * 30 ≤ r3 ∧ r3 ≤ 7/10 * 30)
    (h4 : 3/10 * 40 ≤ r4 ∧ r4 ≤ 7/10 * 40) :
    ∀ p ∈ get_products r1 r2 r3 r4,
      3/10 * p.start_price ≤ p.end_price ∧ p.end_price ≤ 7/10 * p.start_price ∧
      0 ≤ p.end_price ∧ p.end_price ≤ p.start_price := by
  intro p hp
  obtain ⟨hb1, hb2⟩ := h1
  obtain ⟨hb3, hb4⟩ := h2
  obtain ⟨hb5, hb6⟩ := h3
  obtain ⟨hb7, hb8⟩ := h4
  simp only [get_products, List.mem_cons, List.not_mem_nil, or_false] at hp
  rcases hp with rfl | rfl | rfl | rfl
  all_goals refine ⟨?_, ?_, ?_, ?_⟩
  all_goals simp only
  all_goals linarith

/-- C8 witness: with the concrete draws 20, 10, 12, 16 the bounds hold for
every catalog product. -/
theorem catalog_end_price_bounds_witness :
    ((3 : ℚ)/10 * 50 ≤ 20 ∧ (20 : ℚ) ≤ 7/10 * 50) ∧
    ∀ p ∈ get_products 20 10 12 16,
      3/10 * p.start_price ≤ p.end_price ∧ p.end_price ≤ 7/10 * p.start_price ∧
      0 ≤ p.end_price ∧ p.end_price ≤ p.start_price :=
  ⟨by norm_num,
   catalog_end_price_bounds 20 10 12 16 (by norm_num) (by norm_num)
     (by norm_num) (by norm_num)⟩

end EcoStore
